import Mathlib

/-!
Shallow embedding of `immutables/set.py` (a persistent Hash Array Mapped
Trie set) together with proofs about the claims of its specification.

The embedding follows the Python source line by line:

* Python machine-independent integers are `Nat` (all hashes handled by the
  library are non-negative; the structural-hash computation, which folds
  into the signed range, produces an `Int`).
* Python exceptions are modelled with `Except PyExc`; an out-of-range list
  subscript `a[i]` is `a[i]?` returning `none`, which raises `IndexError`.
* The recursive node operations carry an explicit `fuel` argument (first
  position, structural recursion) which models Python's recursion limit;
  every recursive call of the source decrements it, and exhaustion raises
  `RecursionError`.  All theorems either quantify over the fuel or use a
  fuel that is ample for the concrete input.
* Two ghost fields instrument the results of `add`/`without`:
  `wrote` records whether any node was mutated in place (the
  `mutid and mutid == self.mutid` branches of the source), and `same`
  records whether the returned node is the receiver object itself (the
  source's `is` identity, which is decided by exactly those return
  statements that return `self`).  The `node`/`added` fields are the
  values the source returns.
-/

namespace Immutables

/-- A stored element: an identity (`name`) plus its host hash, mirroring the
test suite's `HashKey(hash, name)` whose `__eq__` compares both fields. -/
structure Elem where
  name : Nat
  hash : Nat
deriving DecidableEq

/-- Python exceptions that the source can raise. -/
inductive PyExc where
  | IndexError
  | KeyError (element : Elem)
  | RecursionError
  | AttributeError
  | AssertionError
  | RuntimeError
  | TypeError
  | ValueError
deriving DecidableEq

/-- `set_hash(o)`: fold the host hash to 32 bits by XOR-ing halves. -/
def set_hash (o : Elem) : Nat :=
  (o.hash &&& 0xffffffff) ^^^ ((o.hash >>> 32) &&& 0xffffffff)

/-- `set_mask(hash, shift)`. -/
def set_mask (hash shift : Nat) : Nat :=
  (hash >>> shift) &&& 0x01f

/-- `set_bitpos(hash, shift)`. -/
def set_bitpos (hash shift : Nat) : Nat :=
  1 <<< set_mask hash shift

/-- `set_bitcount(v)`: the SWAR popcount of the source, verbatim. -/
def set_bitcount (v : Nat) : Nat :=
  let v1 := v - ((v >>> 1) &&& 0x55555555)
  let v2 := (v1 &&& 0x33333333) + ((v1 >>> 2) &&& 0x33333333)
  let v3 := (v2 &&& 0x0F0F0F0F) + ((v2 >>> 4) &&& 0x0F0F0F0F)
  let v4 := v3 + (v3 >>> 8)
  (v4 + (v4 >>> 16)) &&& 0x3F

/-- `set_bitindex(bitmap, bit)`. -/
def set_bitindex (bitmap bit : Nat) : Nat :=
  set_bitcount (bitmap &&& (bit - 1))

/-- Python's `bitmap & ~bit` on non-negative ints clears the bits of `bit`;
on `Nat` (no complement) this is `bitmap ^^^ (bitmap &&& bit)`. -/
def set_andnot (bitmap bit : Nat) : Nat :=
  bitmap ^^^ (bitmap &&& bit)

/-- A trie node or stored key.  Python keeps bare keys and node objects in
the same `array` attribute of `BitmapNode`, so the embedding uses a single
type with a `key` leaf constructor next to the two node classes. -/
inductive Node where
  | key (k : Elem)
  | BitmapNode (size : Nat) (bitmap : Nat) (array : List Node) (mutid : Nat)
  | CollisionNode (size : Nat) (hash : Nat) (array : List Elem) (mutid : Nat)

/-- `is_set_node(arg)`. -/
def is_set_node : Node → Bool
  | .key _ => false
  | .BitmapNode _ _ _ _ => true
  | .CollisionNode _ _ _ _ => true

/-- The result of `add`: the returned node and `added` flag of the source,
plus the ghost instrumentation `wrote` (an in-place mutation happened
somewhere below) and `same` (the returned node is the receiver object). -/
structure AddOut where
  node : Node
  added : Bool
  wrote : Bool
  same : Bool

/-- The three outcomes `W_NOT_FOUND` / `W_EMPTY` / `W_NEWNODE` of
`without`, with the new node attached to `W_NEWNODE`. -/
inductive WRes where
  | W_EMPTY
  | W_NOT_FOUND
  | W_NEWNODE (node : Node)

/-- The result of `without` plus the same ghost instrumentation. -/
structure WOut where
  res : WRes
  wrote : Bool
  same : Bool

/-- `CollisionNode.find_index`: scan `array[i]` for `i in range(0, size)`;
`k` counts the remaining iterations (`size - i`).  Returns `none` for the
source's `-1`. -/
def collision_find_index (array : List Elem) (key : Elem) : Nat → Nat → Except PyExc (Option Nat)
  | _, 0 => .ok none
  | i, k + 1 =>
    match array[i]? with
    | none => .error .IndexError
    | some a => if a = key then .ok (some i) else collision_find_index array key (i + 1) k

/-- `CollisionNode.find`: the same scan, returning a boolean. -/
def collision_scan (array : List Elem) (key : Elem) : Nat → Nat → Except PyExc Bool
  | _, 0 => .ok false
  | i, k + 1 =>
    match array[i]? with
    | none => .error .IndexError
    | some a => if a = key then .ok true else collision_scan array key (i + 1) k

/-- `BitmapNode.find` / `CollisionNode.find` (dispatched on the node). -/
def node_find : Nat → Node → Nat → Nat → Elem → Except PyExc Bool
  | 0, _, _, _, _ => .error .RecursionError
  | _ + 1, .key _, _, _, _ => .error .AttributeError
  | _ + 1, .CollisionNode size _ array _, _, _, key =>
    collision_scan array key 0 size
  | fuel + 1, .BitmapNode _ bitmap array _, shift, hash, key =>
    let bit := set_bitpos hash shift
    if bitmap &&& bit = 0 then .ok false
    else
      let key_idx := set_bitindex bitmap bit
      match array[key_idx]? with
      | none => .error .IndexError
      | some (.key k) => .ok (decide (key = k))
      | some key_or_node => node_find fuel key_or_node (shift + 5) hash key

/-- `BitmapNode.add` / `CollisionNode.add` (dispatched on the node).

Faithfulness notes: in the in-place branches the source mutates `self`
(whose `mutid` equals the incoming `mutid`) while otherwise it writes a
clone tagged with `mutid`; in both cases the resulting node value is the
same, so the embedding produces one value and only the ghost flags differ.
When a recursive call returns the child object itself (`same`), the source
returns `self`, whose value then contains the child's current value. -/
def node_add : Nat → Node → Nat → Nat → Elem → Nat → Except PyExc AddOut
  | 0, _, _, _, _, _ => .error .RecursionError
  | _ + 1, .key _, _, _, _, _ => .error .AttributeError
  | fuel + 1, .BitmapNode size bitmap array mid, shift, hash, key, mutid =>
    let bit := set_bitpos hash shift
    let key_idx := set_bitindex bitmap bit
    if bitmap &&& bit ≠ 0 then
      match array[key_idx]? with
      | none => .error .IndexError
      | some (.key k) =>
        if key = k then
          .ok ⟨.BitmapNode size bitmap array mid, false, false, true⟩
        else
          let existing_key_hash := set_hash k
          if existing_key_hash = hash then
            -- the source builds `CollisionNode(4, hash, [key_or_node, key], mutid)`
            let sub_node : Node := .CollisionNode 4 hash [k, key] mutid
            if mutid ≠ 0 ∧ mutid = mid then
              .ok ⟨.BitmapNode size bitmap (array.set key_idx sub_node) mid, true, true, true⟩
            else
              .ok ⟨.BitmapNode size bitmap (array.set key_idx sub_node) mutid, true, false, false⟩
          else
            match node_add fuel (.BitmapNode 0 0 [] mutid) (shift + 5) existing_key_hash k mutid with
            | .error e => .error e
            | .ok r1 =>
              match node_add fuel r1.node (shift + 5) hash key mutid with
              | .error e => .error e
              | .ok r2 =>
                if mutid ≠ 0 ∧ mutid = mid then
                  .ok ⟨.BitmapNode size bitmap (array.set key_idx r2.node) mid, true, true, true⟩
                else
                  .ok ⟨.BitmapNode size bitmap (array.set key_idx r2.node) mutid, true, false, false⟩
      | some key_or_node =>
        match node_add fuel key_or_node (shift + 5) hash key mutid with
        | .error e => .error e
        | .ok r =>
          if r.same then
            -- `if key_or_node is sub_node: return self, added`
            .ok ⟨.BitmapNode size bitmap (array.set key_idx r.node) mid, r.added, r.wrote, true⟩
          else if mutid ≠ 0 ∧ mutid = mid then
            .ok ⟨.BitmapNode size bitmap (array.set key_idx r.node) mid, r.added, true, true⟩
          else
            .ok ⟨.BitmapNode size bitmap (array.set key_idx r.node) mutid, r.added, r.wrote, false⟩
    else
      let n := set_bitcount bitmap
      let new_array := array.take key_idx ++ .key key :: array.drop key_idx
      if mutid ≠ 0 ∧ mutid = mid then
        .ok ⟨.BitmapNode (n + 1) (bitmap ||| bit) new_array mid, true, true, true⟩
      else
        .ok ⟨.BitmapNode (n + 1) (bitmap ||| bit) new_array mutid, true, false, false⟩
  | fuel + 1, .CollisionNode size chash array mid, shift, hash, key, mutid =>
    if hash = chash then
      match collision_find_index array key 0 size with
      | .error e => .error e
      | .ok none =>
        let new_array := array ++ [key]
        if mutid ≠ 0 ∧ mutid = mid then
          .ok ⟨.CollisionNode (size + 1) chash new_array mid, true, true, true⟩
        else
          .ok ⟨.CollisionNode (size + 1) chash new_array mutid, true, false, false⟩
      | .ok (some _) =>
        .ok ⟨.CollisionNode size chash array mid, false, false, true⟩
    else
      -- wrap the collision node in a fresh bitmap node; the node this
      -- returns can never be the collision receiver itself, so `same` is
      -- false at this level
      match node_add fuel
          (.BitmapNode 1 (set_bitpos chash shift) [.CollisionNode size chash array mid] mutid)
          shift hash key mutid with
      | .error e => .error e
      | .ok r => .ok ⟨r.node, r.added, r.wrote, false⟩

/-- `BitmapNode.without` / `CollisionNode.without` (dispatched). -/
def node_without : Nat → Node → Nat → Nat → Elem → Nat → Except PyExc WOut
  | 0, _, _, _, _, _ => .error .RecursionError
  | _ + 1, .key _, _, _, _, _ => .error .AttributeError
  | _ + 1, .CollisionNode size chash array _mid, shift, hash, key, mutid =>
    if hash ≠ chash then .ok ⟨.W_NOT_FOUND, false, false⟩
    else
      match collision_find_index array key 0 size with
      | .error e => .error e
      | .ok none => .ok ⟨.W_NOT_FOUND, false, false⟩
      | .ok (some key_idx) =>
        let new_size := size - 1
        if new_size = 0 then .ok ⟨.W_EMPTY, false, false⟩
        else if new_size = 1 then
          if key_idx = 0 then
            match array[(1 : Nat)]? with
            | none => .error .IndexError
            | some survivor =>
              .ok ⟨.W_NEWNODE (.BitmapNode 1 (set_bitpos hash shift) [.key survivor] mutid),
                false, false⟩
          else if key_idx = 1 then
            match array[(0 : Nat)]? with
            | none => .error .IndexError
            | some survivor =>
              .ok ⟨.W_NEWNODE (.BitmapNode 1 (set_bitpos hash shift) [.key survivor] mutid),
                false, false⟩
          else .error .AssertionError
        else
          let new_array := array.take key_idx ++ array.drop (key_idx + 1)
          if mutid ≠ 0 ∧ mutid = _mid then
            .ok ⟨.W_NEWNODE (.CollisionNode (size - 1) chash new_array _mid), true, true⟩
          else
            .ok ⟨.W_NEWNODE (.CollisionNode (size - 1) chash new_array mutid), false, false⟩
  | fuel + 1, .BitmapNode size bitmap array mid, shift, hash, key, mutid =>
    let bit := set_bitpos hash shift
    if bitmap &&& bit = 0 then .ok ⟨.W_NOT_FOUND, false, false⟩
    else
      let key_idx := set_bitindex bitmap bit
      match array[key_idx]? with
      | none => .error .IndexError
      | some (.key k) =>
        if key = k then
          if size = 1 then .ok ⟨.W_EMPTY, false, false⟩
          else
            let new_array := array.take key_idx ++ array.drop (key_idx + 1)
            if mutid ≠ 0 ∧ mutid = mid then
              .ok ⟨.W_NEWNODE (.BitmapNode (size - 1) (set_andnot bitmap bit) new_array mid),
                true, true⟩
            else
              .ok ⟨.W_NEWNODE (.BitmapNode (size - 1) (set_andnot bitmap bit) new_array mutid),
                false, false⟩
        else .ok ⟨.W_NOT_FOUND, false, false⟩
      | some key_or_node =>
        match node_without fuel key_or_node (shift + 5) hash key mutid with
        | .error e => .error e
        | .ok w =>
          match w.res with
          | .W_EMPTY => .error .RuntimeError
          | .W_NOT_FOUND => .ok ⟨.W_NOT_FOUND, w.wrote, false⟩
          | .W_NEWNODE sub_node =>
            -- inline a size-1 bitmap holding a single element leaf
            let inlined : Except PyExc Node :=
              match sub_node with
              | .BitmapNode ssize sbmp sarr smid =>
                if ssize = 1 then
                  match sarr[(0 : Nat)]? with
                  | none => .error .IndexError
                  | some s0 =>
                    if is_set_node s0 then .ok (.BitmapNode ssize sbmp sarr smid) else .ok s0
                else .ok (.BitmapNode ssize sbmp sarr smid)
              | other => .ok other
            match inlined with
            | .error e => .error e
            | .ok sub2 =>
              if mutid ≠ 0 ∧ mutid = mid then
                .ok ⟨.W_NEWNODE (.BitmapNode size bitmap (array.set key_idx sub2) mid),
                  true, true⟩
              else
                .ok ⟨.W_NEWNODE (.BitmapNode size bitmap (array.set key_idx sub2) mutid),
                  w.wrote, false⟩

/-- `BitmapNode.__iter__` / `CollisionNode.__iter__`.  The bitmap loop over
`range(0, size)` is encoded by recursing on the node with its first entry
removed, so `array[i]` becomes the head of the remaining array and running
past the array raises `IndexError` exactly as in the source. -/
def node_iter : Nat → Node → Except PyExc (List Elem)
  | 0, _ => .error .RecursionError
  | _ + 1, .key _ => .error .TypeError
  | _ + 1, .CollisionNode _ _ array _ => .ok array
  | fuel + 1, .BitmapNode size bitmap array mid =>
    if size = 0 then .ok []
    else
      match array[(0 : Nat)]? with
      | none => .error .IndexError
      | some (.key k) =>
        match node_iter fuel (.BitmapNode (size - 1) bitmap (array.drop 1) mid) with
        | .error e => .error e
        | .ok rest => .ok (k :: rest)
      | some key_or_node =>
        match node_iter fuel key_or_node with
        | .error e => .error e
        | .ok sub =>
          match node_iter fuel (.BitmapNode (size - 1) bitmap (array.drop 1) mid) with
          | .error e => .error e
          | .ok rest => .ok (sub ++ rest)

/-- The persistent `Set` facade: a count and a root node. -/
structure Set where
  count : Nat
  root : Node

/-- `Set()`: the designated empty set. -/
def Set.empty : Set := ⟨0, .BitmapNode 0 0 [] 0⟩

/-- `Set.__contains__`. -/
def Set.contains (fuel : Nat) (s : Set) (element : Elem) : Except PyExc Bool :=
  node_find fuel s.root 0 (set_hash element) element

/-- `Set.include`: persistent insertion (mutid 0); returns `self` when the
root add returned the root object itself. -/
def Set.insert (fuel : Nat) (s : Set) (element : Elem) : Except PyExc Set :=
  match node_add fuel s.root 0 (set_hash element) element 0 with
  | .error e => .error e
  | .ok r =>
    if r.same then .ok s
    else .ok ⟨if r.added then s.count + 1 else s.count, r.node⟩

/-- `Set.exclude`: persistent removal; raises `KeyError(element)` on
`W_NOT_FOUND` and returns the designated empty set on `W_EMPTY`. -/
def Set.exclude (fuel : Nat) (s : Set) (element : Elem) : Except PyExc Set :=
  match node_without fuel s.root 0 (set_hash element) element 0 with
  | .error e => .error e
  | .ok w =>
    match w.res with
    | .W_EMPTY => .ok Set.empty
    | .W_NOT_FOUND => .error (.KeyError element)
    | .W_NEWNODE node => .ok ⟨s.count - 1, node⟩

/-- The insertion loop shared by `Set.update` and `SetMutation.update`. -/
def update_loop (fuel mutid : Nat) : List Elem → Nat → Node → Except PyExc (Nat × Node)
  | [], count, root => .ok (count, root)
  | element :: rest, count, root =>
    match node_add fuel root 0 (set_hash element) element mutid with
    | .error e => .error e
    | .ok r => update_loop fuel mutid rest (if r.added then count + 1 else count) r.node

/-- `Set.update(*args)`: with no arguments it returns `self` before drawing
a fresh mutation id; otherwise `mutid` stands for the fresh id drawn from
the process-wide counter. -/
def Set.update (fuel : Nat) (s : Set) (mutid : Nat) (args : List (List Elem)) :
    Except PyExc Set :=
  if args = [] then .ok s
  else
    match update_loop fuel mutid args.flatten s.count s.root with
    | .error e => .error e
    | .ok (count, root) => .ok ⟨count, root⟩

/-- The transient `SetMutation`: count, root and its generation tag. -/
structure SetMutation where
  count : Nat
  root : Node
  mutid : Nat

/-- `Set.mutate()`; `mutid` stands for the fresh non-zero id drawn from the
process-wide counter. -/
def Set.mutate (s : Set) (mutid : Nat) : SetMutation :=
  ⟨s.count, s.root, mutid⟩

/-- `SetMutation.include`; the Python method mutates `self`, modelled by
returning the new mutator state. -/
def SetMutation.insert (fuel : Nat) (m : SetMutation) (element : Elem) :
    Except PyExc SetMutation :=
  if m.mutid = 0 then .error .ValueError
  else
    match node_add fuel m.root 0 (set_hash element) element m.mutid with
    | .error e => .error e
    | .ok r => .ok ⟨if r.added then m.count + 1 else m.count, r.node, m.mutid⟩

/-- `SetMutation.exclude`. -/
def SetMutation.exclude (fuel : Nat) (m : SetMutation) (element : Elem) :
    Except PyExc SetMutation :=
  if m.mutid = 0 then .error .ValueError
  else
    match node_without fuel m.root 0 (set_hash element) element m.mutid with
    | .error e => .error e
    | .ok w =>
      match w.res with
      | .W_EMPTY => .ok ⟨0, .BitmapNode 0 0 [] m.mutid, m.mutid⟩
      | .W_NOT_FOUND => .error (.KeyError element)
      | .W_NEWNODE node => .ok ⟨m.count - 1, node, m.mutid⟩

/-- `SetMutation.update(*args)`: checks `mutid` first, then returns `self`
on no arguments, else runs the bulk-insertion loop with its own `mutid`. -/
def SetMutation.update (fuel : Nat) (m : SetMutation) (args : List (List Elem)) :
    Except PyExc SetMutation :=
  if m.mutid = 0 then .error .ValueError
  else if args = [] then .ok m
  else
    match update_loop fuel m.mutid args.flatten m.count m.root with
    | .error e => .error e
    | .ok (count, root) => .ok ⟨count, root, m.mutid⟩

/-- `SetMutation.finish()`: zero the mutation id and produce the persistent
set; returns the finished mutator state together with the set. -/
def SetMutation.finish (m : SetMutation) : SetMutation × Set :=
  (⟨m.count, m.root, 0⟩, ⟨m.count, m.root⟩)

/-- `sys.maxsize` on a 64-bit platform. -/
def sys_maxsize : Nat := 2 ^ 63 - 1

/-- The mask `2 * MAX + 1` of `Set.__hash__`. -/
def hash_MASK : Nat := 2 * sys_maxsize + 1

/-- One accumulation step of `Set.__hash__`: `h ^= (hx ^ (hx << 16) ^
89869747) * 3644798167; h &= MASK`.  Note that the source feeds `hash(key)`
(the raw host hash), not the folded `set_hash`. -/
def set_hash_step (h hx : Nat) : Nat :=
  (h ^^^ ((hx ^^^ (hx <<< 16) ^^^ 89869747) * 3644798167)) &&& hash_MASK

/-- The full structural-hash computation of `Set.__hash__` over the list of
raw host hashes produced by iteration. -/
def set_hash_fold (count : Nat) (hxs : List Nat) : Int :=
  let h0 := (1927868237 * (count + 1)) &&& hash_MASK
  let h1 := hxs.foldl set_hash_step h0
  let h2 := (h1 * 69069 + 907133923) &&& hash_MASK
  let h3 : Int := if h2 > sys_maxsize then (h2 : Int) - ((hash_MASK : Int) + 1) else (h2 : Int)
  if h3 = -1 then 590923713 else h3

/-- `Set.__hash__` (the memoization cache is invisible to a pure model; the
computed value is what it stores and returns). -/
def Set.hashValue (fuel : Nat) (s : Set) : Except PyExc Int :=
  match node_iter fuel s.root with
  | .error e => .error e
  | .ok keys => .ok (set_hash_fold s.count (keys.map Elem.hash))

/-- Modelled from the spec, §4.3: the structural-hash algorithm as the
specification words it — start from `1927868237 * (count + 1)` masked to
`2·MAX+1`, accumulate `(hx ^ (hx << 16) ^ 89869747) * 3644798167` by XOR
with remasking, finalize with `* 69069 + 907133923`, fold into the signed
range and remap `-1` to `590923713`. -/
def spec_structural_hash (count : Nat) (hxs : List Nat) : Int :=
  let M : Nat := 2 ^ 64
  let h0 := (1927868237 * (count + 1)) % M
  let h1 := hxs.foldl (fun h hx => (h ^^^ ((hx ^^^ (hx <<< 16) ^^^ 89869747) * 3644798167)) % M) h0
  let h2 := (h1 * 69069 + 907133923) % M
  let h3 : Int := if (2 ^ 63 - 1 : Nat) < h2 then (h2 : Int) - (M : Int) else (h2 : Int)
  if h3 = -1 then 590923713 else h3

/-- The structural hash as claim C7 reads it: the accumulated `hx` is the
32-bit element hash obtained by XOR-folding the halves of the host hash
(i.e. `set_hash`), not the raw host hash. -/
def claim_structural_hash (count : Nat) (elems : List Elem) : Int :=
  spec_structural_hash count (elems.map set_hash)

/-- Does every collision node reachable in the tree hold at least two
elements in its array?  (Spec invariant: collision size is at least 2.)
The `fuel` bounds the depth as in the node operations. -/
def no_undersized_collision : Nat → Node → Bool
  | 0, _ => false
  | _ + 1, .key _ => true
  | _ + 1, .CollisionNode _ _ array _ => 2 ≤ array.length
  | fuel + 1, .BitmapNode size bitmap array mid =>
    match array with
    | [] => true
    | c :: rest =>
      no_undersized_collision fuel c &&
        no_undersized_collision fuel (.BitmapNode size bitmap rest mid)

/-- Test elements with a common hash `100`, as in the test suite's
collision scenarios (`HashKey(100, 'aaa')` etc.). -/
def kA : Elem := ⟨0, 100⟩

/-- Second element colliding with `kA`. -/
def kB : Elem := ⟨1, 100⟩

/-- Third element colliding with `kA` and `kB`. -/
def kC : Elem := ⟨2, 100⟩

/-- The set `{kA}` as built by the code. -/
def setA : Set := ⟨1, .BitmapNode 1 16 [.key kA] 0⟩

/-- The set `{kA, kB}` as built by the code: the two colliding elements sit
in one collision node, which the code creates with `size = 4` although its
array has two entries. -/
def setAB : Set := ⟨2, .BitmapNode 1 16 [.CollisionNode 4 100 [kA, kB] 0] 0⟩

/-- An element whose host hash exceeds 32 bits, so that the raw hash and
the folded `set_hash` differ. -/
def kBig : Elem := ⟨0, 2 ^ 32⟩

/-- The set `{kBig}` as built by the code. -/
def setBig : Set := ⟨1, .BitmapNode 1 2 [.key kBig] 0⟩

/-- The test of `BitmapNode.without` that triggers trie compaction: is the
node a bitmap node of size 1 whose single slot holds an element leaf? -/
def is_singleton_leaf (n : Node) : Bool :=
  match n with
  | .BitmapNode size _ array _ =>
    size == 1 &&
      (match array[(0 : Nat)]? with
       | some (.key _) => true
       | _ => false)
  | _ => false

/-- No size-1 bitmap wrapper around a single element leaf occurs strictly
below this node (the node itself may be such a wrapper: the root of a
one-element set is). -/
inductive NoWrap : Node → Prop where
  | key (k : Elem) : NoWrap (.key k)
  | collision (size hash : Nat) (array : List Elem) (mutid : Nat) :
      NoWrap (.CollisionNode size hash array mutid)
  | bitmap (size bitmap : Nat) (array : List Node) (mutid : Nat)
      (hsub : ∀ c ∈ array, NoWrap c)
      (hflat : ∀ c ∈ array, is_singleton_leaf c = false) :
      NoWrap (.BitmapNode size bitmap array mutid)

/-- Reference popcount: the number of set bits among the low `w` bits. -/
def pc (w x : Nat) : Nat :=
  (List.range w).countP (fun i => x.testBit i)

/-- The first three folding steps of the SWAR popcount, with the three
masks as parameters so that the same shape describes the 32-bit, 16-bit
and 8-bit versions. -/
def swar123 (m1 m2 m3 x : Nat) : Nat :=
  let v1 := x - ((x >>> 1) &&& m1)
  let v2 := (v1 &&& m2) + ((v1 >>> 2) &&& m2)
  (v2 &&& m3) + ((v2 >>> 4) &&& m3)

/-- The last two folding steps of the SWAR popcount. -/
def swar45 (v3 : Nat) : Nat :=
  let v4 := v3 + (v3 >>> 8)
  (v4 + (v4 >>> 16)) &&& 0x3F

/-- The structural invariant of reachable trees that the proofs about
`add` rely on: a bitmap node's bitmap fits in 32 bits and its `size` and
array length equal the bitmap's popcount; a collision node's array is never
longer than its `size` field (the code creates collision nodes with
`size = length + 2`). -/
inductive NodeInv : Node → Prop where
  | key (k : Elem) : NodeInv (.key k)
  | collision (size hash : Nat) (array : List Elem) (mutid : Nat)
      (hlen : array.length ≤ size) :
      NodeInv (.CollisionNode size hash array mutid)
  | bitmap (size bitmap : Nat) (array : List Node) (mutid : Nat)
      (hbmp : bitmap < 2 ^ 32)
      (hsize : size = array.length)
      (hlen : array.length = set_bitcount bitmap)
      (hsub : ∀ c ∈ array, NodeInv c) :
      NodeInv (.BitmapNode size bitmap array mutid)

/-- The invariant of a whole persistent set. -/
def SetInv (s : Set) : Prop := NodeInv s.root

end Immutables

namespace Immutables

/-! ### Supporting lemmas -/

/-- Writing back the value already stored at an index leaves a list
unchanged. -/
theorem list_set_same : ∀ (l : List Node) (i : Nat) (a : Node), l[i]? = some a → l.set i a = l
  | [], i, a => by simp
  | x :: xs, 0, a => by intro h; simp_all
  | x :: xs, i + 1, a => by
    intro h
    simp only [List.getElem?_cons_succ] at h
    simp [list_set_same xs i a h]

/-- With `mutid = 0` (persistent edits), `add` never writes in place, and
whenever it reports having returned the receiver object itself, the
returned node value is the unchanged receiver. -/
theorem node_add_zero_ghost :
    ∀ fuel n shift hash key r, node_add fuel n shift hash key 0 = .ok r →
      r.wrote = false ∧ (r.same = true → r.node = n) := by
  intro fuel
  induction fuel with
  | zero => intro n shift hash key r h; simp [node_add] at h
  | succ fuel ih =>
    intro n shift hash key r h
    match n with
    | .key _ => simp [node_add] at h
    | .BitmapNode size bitmap array mid =>
      rw [node_add] at h
      simp only [] at h
      split at h
      · -- bit occupied
        split at h
        · exact absurd h (by simp)
        · -- slot holds an element leaf
          split at h
          · -- equal element: return self, False
            simp only [Except.ok.injEq] at h
            subst h
            refine ⟨rfl, fun _ => rfl⟩
          · split at h
            · -- collision node created
              split at h
              · simp_all
              · simp only [Except.ok.injEq] at h
                subst h
                exact ⟨rfl, by simp⟩
            · -- chain of new bitmap nodes
              split at h
              · exact absurd h (by simp)
              · split at h
                · exact absurd h (by simp)
                · split at h
                  · simp_all
                  · simp only [Except.ok.injEq] at h
                    subst h
                    exact ⟨rfl, by simp⟩
        · -- slot holds a child node
          rename_i child hnk heq
          split at h
          · exact absurd h (by simp)
          · rename_i rc hrc
            obtain ⟨hw, hn⟩ := ih _ _ _ _ _ hrc
            split at h
            · rename_i hsame
              simp only [Except.ok.injEq] at h
              subst h
              refine ⟨hw, fun _ => ?_⟩
              simp only []
              rw [hn hsame, list_set_same _ _ _ heq]
            · split at h
              · simp_all
              · simp only [Except.ok.injEq] at h
                subst h
                exact ⟨hw, by intro hc; simp at hc⟩
      · -- bit vacant: plain insertion
        split at h
        · simp_all
        · simp only [Except.ok.injEq] at h
          subst h
          exact ⟨rfl, by simp⟩
    | .CollisionNode size chash carr mid =>
      rw [node_add] at h
      simp only [] at h
      split at h
      · -- hash matches the node hash
        split at h
        · exact absurd h (by simp)
        · -- not found: append
          split at h
          · simp_all
          · simp only [Except.ok.injEq] at h
            subst h
            exact ⟨rfl, by simp⟩
        · -- found: return self, False
          simp only [Except.ok.injEq] at h
          subst h
          exact ⟨rfl, fun _ => rfl⟩
      · -- hash differs: wrap in a fresh bitmap node and add there
        split at h
        · exact absurd h (by simp)
        · rename_i rw hrw
          obtain ⟨hw, _⟩ := ih _ _ _ _ _ hrw
          simp only [Except.ok.injEq] at h
          subst h
          exact ⟨hw, by intro hc; simp at hc⟩

/-- With `mutid = 0`, `without` never writes in place and never returns the
receiver object. -/
theorem node_without_zero_ghost :
    ∀ fuel n shift hash key w, node_without fuel n shift hash key 0 = .ok w →
      w.wrote = false ∧ w.same = false := by
  intro fuel
  induction fuel with
  | zero => intro n shift hash key w h; simp [node_without] at h
  | succ fuel ih =>
    intro n shift hash key w h
    match n with
    | .key _ => simp [node_without] at h
    | .CollisionNode size chash carr mid =>
      rw [node_without] at h
      simp only [] at h
      split at h
      · simp only [Except.ok.injEq] at h; subst h; exact ⟨rfl, rfl⟩
      · split at h
        · exact absurd h (by simp)
        · simp only [Except.ok.injEq] at h; subst h; exact ⟨rfl, rfl⟩
        · split at h
          · simp only [Except.ok.injEq] at h; subst h; exact ⟨rfl, rfl⟩
          · split at h
            · split at h
              · split at h
                · exact absurd h (by simp)
                · simp only [Except.ok.injEq] at h; subst h; exact ⟨rfl, rfl⟩
              · split at h
                · split at h
                  · exact absurd h (by simp)
                  · simp only [Except.ok.injEq] at h; subst h; exact ⟨rfl, rfl⟩
                · exact absurd h (by simp)
            · split at h
              · simp_all
              · simp only [Except.ok.injEq] at h; subst h; exact ⟨rfl, rfl⟩
    | .BitmapNode size bitmap array mid =>
      rw [node_without] at h
      simp only [] at h
      split at h
      · simp only [Except.ok.injEq] at h; subst h; exact ⟨rfl, rfl⟩
      · split at h
        · exact absurd h (by simp)
        · -- element leaf in the slot
          split at h
          · split at h
            · simp only [Except.ok.injEq] at h; subst h; exact ⟨rfl, rfl⟩
            · split at h
              · simp_all
              · simp only [Except.ok.injEq] at h; subst h; exact ⟨rfl, rfl⟩
          · simp only [Except.ok.injEq] at h; subst h; exact ⟨rfl, rfl⟩
        · -- child node in the slot
          split at h
          · exact absurd h (by simp)
          · rename_i wc hwc
            obtain ⟨hw, _⟩ := ih _ _ _ _ _ hwc
            split at h
            · exact absurd h (by simp)
            · simp only [Except.ok.injEq] at h; subst h; exact ⟨hw, rfl⟩
            · split at h
              · exact absurd h (by simp)
              · split at h
                · simp_all
                · simp only [Except.ok.injEq] at h; subst h; exact ⟨hw, rfl⟩

/-! ### Claim theorems -/

/-- C1: in the set `{kA, kB}` whose two distinct elements share the full
32-bit hash `100`, excluding `kA` succeeds and the set still contains `kB`,
but the survivor is *not* promoted into a singleton bitmap node: the result
keeps a reachable collision node holding a single element (with its `size`
field at 3), because the collision node was created with `size = 4` and so
`CollisionNode.without` computes `new_size = 3` and never takes its
promotion branch.  This contradicts the claim and the spec (§4.2.5 and the
collision-node invariant `size ≥ 2`). -/
theorem C1_surviving_singleton_collision_not_promoted :
    Set.insert 64 Set.empty kA = .ok setA ∧
    Set.insert 64 setA kB = .ok setAB ∧
    Set.exclude 64 setAB kA =
      .ok ⟨1, .BitmapNode 1 16 [.CollisionNode 3 100 [kB] 0] 0⟩ ∧
    Set.contains 64 ⟨1, .BitmapNode 1 16 [.CollisionNode 3 100 [kB] 0] 0⟩ kB = .ok true ∧
    no_undersized_collision 64 (.BitmapNode 1 16 [.CollisionNode 3 100 [kB] 0] 0) = false :=
  ⟨rfl, rfl, rfl, rfl, rfl⟩

/-- C2: adding a third distinct element with the shared hash to the
two-element collision node does not append it: the equality search
`find_index` scans `range(0, size)` with `size = 4` over a two-element
array and raises `IndexError` at index 2. -/
theorem C2_third_collision_add_raises :
    node_add 64 (.CollisionNode 4 100 [kA, kB] 0) 5 100 kC 0 = .error .IndexError ∧
    collision_find_index [kA, kB] kC 0 4 = .error .IndexError ∧
    Set.insert 64 setAB kC = .error .IndexError :=
  ⟨rfl, rfl, rfl⟩

/-- C3: excluding an element absent from a set containing a collision node
with its hash raises `IndexError`, not `KeyError` with the element as
payload; the last-element and present-element clauses behave as claimed on
collision-free sets. -/
theorem C3_exclude_absent_in_collision_raises :
    Set.exclude 64 setAB ⟨9, 100⟩ = .error .IndexError ∧
    (PyExc.IndexError ≠ PyExc.KeyError ⟨9, 100⟩) ∧
    Set.exclude 64 setA ⟨9, 101⟩ = .error (.KeyError ⟨9, 101⟩) ∧
    Set.exclude 64 setA kA = .ok Set.empty :=
  ⟨rfl, by decide, rfl, rfl⟩

/-- C4: the count law is unsatisfiable on the collision set `{kA, kB}`
(`len = 2`): including the absent colliding element `kC` raises
`IndexError` instead of returning a set of length 3. -/
theorem C4_count_law_breaks_on_collision :
    setAB.count = 2 ∧
    Set.contains 64 setAB kC = .error .IndexError ∧
    Set.insert 64 setAB kC = .error .IndexError :=
  ⟨rfl, rfl, rfl⟩

/-- C7 counterexample: on the one-element set whose element has host hash
`2^32`, the hash computed by the code (which accumulates the raw host hash
`hash(key)`) differs from the claim's algorithm (which accumulates the
32-bit XOR-folded element hash). -/
theorem C7_counterexample_raw_vs_folded :
    Set.insert 64 Set.empty kBig = .ok setBig ∧
    Set.hashValue 64 setBig = .ok 1220407762705617830 ∧
    claim_structural_hash setBig.count [kBig] = -8166288242918962057 ∧
    (1220407762705617830 : Int) ≠ -8166288242918962057 :=
  ⟨rfl, rfl, by decide, by decide⟩

/-- C5: persistent edits (mutid 0) never mutate a node in place — both
`add` and `without` report `wrote = false` on every success, so a set `s`
and every node reachable from it are left unchanged by `include`/`exclude`
(and by any operation on the result, which also runs with mutid 0). -/
theorem C5_persistent_edits_always_clone :
    ∀ fuel (s : Set) element r w,
      (node_add fuel s.root 0 (set_hash element) element 0 = .ok r → r.wrote = false) ∧
      (node_without fuel s.root 0 (set_hash element) element 0 = .ok w → w.wrote = false) :=
  fun fuel _ _ r w =>
    ⟨fun h => (node_add_zero_ghost fuel _ _ _ _ r h).1,
     fun h => (node_without_zero_ghost fuel _ _ _ _ w h).1⟩

/-- Witness for C5 at concrete inputs: inserting `kB` into `{kA}` and
removing `kA` from `{kA}`. -/
theorem C5_witness :
    (⟨.BitmapNode 1 16 [.CollisionNode 4 100 [kA, kB] 0] 0, true, false, false⟩ : AddOut).wrote
        = false ∧
    (⟨.W_EMPTY, false, false⟩ : WOut).wrote = false :=
  ⟨(C5_persistent_edits_always_clone 64 setA kB
      ⟨.BitmapNode 1 16 [.CollisionNode 4 100 [kA, kB] 0] 0, true, false, false⟩
      ⟨.W_EMPTY, false, false⟩).1 rfl,
   (C5_persistent_edits_always_clone 64 setA kA
      ⟨.BitmapNode 1 16 [.CollisionNode 4 100 [kA, kB] 0] 0, true, false, false⟩
      ⟨.W_EMPTY, false, false⟩).2 rfl⟩

/-- C9: every write operation on a finished mutator (`mutid = 0`) fails
with the mutator-finished `ValueError` before touching count or root. -/
theorem C9_finished_mutator_writes_fail :
    ∀ fuel (m : SetMutation) element args, m.mutid = 0 →
      SetMutation.insert fuel m element = .error .ValueError ∧
      SetMutation.exclude fuel m element = .error .ValueError ∧
      SetMutation.update fuel m args = .error .ValueError := by
  intro fuel m element args h
  refine ⟨?_, ?_, ?_⟩ <;>
    simp [SetMutation.insert, SetMutation.exclude, SetMutation.update, h]

/-- Witness for C9: a mutator finished by `finish()` rejects all three
writes. -/
theorem C9_witness :
    SetMutation.insert 64 ((Set.mutate Set.empty 5).finish.fst) kA = .error .ValueError ∧
    SetMutation.exclude 64 ((Set.mutate Set.empty 5).finish.fst) kA = .error .ValueError ∧
    SetMutation.update 64 ((Set.mutate Set.empty 5).finish.fst) [] = .error .ValueError :=
  C9_finished_mutator_writes_fail 64 ((Set.mutate Set.empty 5).finish.fst) kA [] rfl

/-- C10: `update()` with zero iterable arguments returns the receiver
itself, both on a persistent set and on an unfinished mutator, leaving
count and root untouched. -/
theorem C10_empty_update_returns_self :
    (∀ fuel (s : Set) mutid, Set.update fuel s mutid [] = .ok s) ∧
    (∀ fuel (m : SetMutation), m.mutid ≠ 0 → SetMutation.update fuel m [] = .ok m) := by
  constructor
  · intro fuel s mutid; simp [Set.update]
  · intro fuel m h; simp [SetMutation.update, h]

/-- Witness for C10 at concrete inputs. -/
theorem C10_witness :
    Set.update 64 setA 0 [] = .ok setA ∧
    SetMutation.update 64 (Set.mutate setA 7) [] = .ok (Set.mutate setA 7) :=
  ⟨C10_empty_update_returns_self.1 64 setA 0,
   C10_empty_update_returns_self.2 64 (Set.mutate setA 7) (by decide)⟩

/-- C7 amended: the code's structural-hash computation agrees with the
spec's §4.3 algorithm once `hx` is read as the raw host hash of each
element (not the 32-bit folded element hash). -/
theorem C7_amended_code_matches_spec_raw_hash :
    ∀ count hxs, set_hash_fold count hxs = spec_structural_hash count hxs := by
  intro count hxs
  have hmask : hash_MASK = 2 ^ 64 - 1 := by norm_num [hash_MASK, sys_maxsize]
  have hand : ∀ x : Nat, x &&& hash_MASK = x % 2 ^ 64 := fun x => by
    rw [hmask]; exact Nat.and_pow_two_sub_one_eq_mod x 64
  have hstep : set_hash_step =
      fun h hx => (h ^^^ ((hx ^^^ (hx <<< 16) ^^^ 89869747) * 3644798167)) % 2 ^ 64 := by
    funext h hx
    rw [set_hash_step, hand]
  have hcast : ((hash_MASK : Int) + 1) = (((2 ^ 64 : Nat) : Int)) := by
    rw [hmask]; norm_cast
  have hgt : ∀ x : Nat, (x > sys_maxsize) = ((2 ^ 63 - 1 : Nat) < x) := fun x => by
    rw [sys_maxsize]
  simp only [set_hash_fold, spec_structural_hash, hstep, hand, hcast, hgt]

/-- Removal preserves the absence of size-1 bitmap wrappers around single
element leaves: whenever a recursive `without` hands back such a wrapper,
the parent inlines the leaf into its own slot. -/
theorem node_without_preserves_nowrap :
    ∀ fuel n shift hash key mutid w, NoWrap n →
      node_without fuel n shift hash key mutid = .ok w →
      ∀ n', w.res = .W_NEWNODE n' → NoWrap n' := by
  intro fuel
  induction fuel with
  | zero => intro n sh h k m w _ hw; simp [node_without] at hw
  | succ fuel ih =>
    intro n sh h k m w hn hw n' hres
    match n with
    | .key _ => simp [node_without] at hw
    | .CollisionNode size chash carr mid =>
      rw [node_without] at hw
      simp only [] at hw
      split at hw
      · simp only [Except.ok.injEq] at hw; subst hw; simp at hres
      · split at hw
        · exact absurd hw (by simp)
        · simp only [Except.ok.injEq] at hw; subst hw; simp at hres
        · split at hw
          · simp only [Except.ok.injEq] at hw; subst hw; simp at hres
          · split at hw
            · -- promotion branch (key_idx = 0)
              split at hw
              · split at hw
                · exact absurd hw (by simp)
                · simp only [Except.ok.injEq] at hw; subst hw
                  simp only [] at hres
                  rw [WRes.W_NEWNODE.injEq] at hres
                  subst hres
                  refine .bitmap _ _ _ _ ?_ ?_ <;> intro c hc <;> simp at hc <;> subst hc
                  · exact .key _
                  · rfl
              · split at hw
                · split at hw
                  · exact absurd hw (by simp)
                  · simp only [Except.ok.injEq] at hw; subst hw
                    simp only [] at hres
                    rw [WRes.W_NEWNODE.injEq] at hres
                    subst hres
                    refine .bitmap _ _ _ _ ?_ ?_ <;> intro c hc <;> simp at hc <;> subst hc
                    · exact .key _
                    · rfl
                · exact absurd hw (by simp)
            · -- ordinary shrink of the collision array
              split at hw <;>
              · simp only [Except.ok.injEq] at hw; subst hw
                simp only [] at hres
                rw [WRes.W_NEWNODE.injEq] at hres
                subst hres
                exact .collision _ _ _ _
    | .BitmapNode size bitmap array mid =>
      rw [node_without] at hw
      simp only [] at hw
      cases hn with
      | bitmap _ _ _ _ hsub hflat =>
        split at hw
        · simp only [Except.ok.injEq] at hw; subst hw; simp at hres
        · split at hw
          · exact absurd hw (by simp)
          · -- element leaf in the slot
            split at hw
            · split at hw
              · simp only [Except.ok.injEq] at hw; subst hw; simp at hres
              · split at hw <;>
                · simp only [Except.ok.injEq] at hw; subst hw
                  simp only [] at hres
                  rw [WRes.W_NEWNODE.injEq] at hres
                  subst hres
                  refine .bitmap _ _ _ _ ?_ ?_ <;> intro c hc <;>
                    rcases List.mem_append.1 hc with hc' | hc'
                  · exact hsub c (List.take_subset _ _ hc')
                  · exact hsub c (List.drop_subset _ _ hc')
                  · exact hflat c (List.take_subset _ _ hc')
                  · exact hflat c (List.drop_subset _ _ hc')
            · simp only [Except.ok.injEq] at hw; subst hw; simp at hres
          · -- child node in the slot
            rename_i child hnk heq
            split at hw
            · exact absurd hw (by simp)
            · rename_i wc hwc
              have hchild : NoWrap child := hsub child (List.getElem?_mem heq)
              split at hw
              · exact absurd hw (by simp)
              · simp only [Except.ok.injEq] at hw; subst hw; simp at hres
              · rename_i sub_node hwres
                have hsubn : NoWrap sub_node := ih _ _ _ _ _ _ hchild hwc sub_node hwres
                have mk : ∀ (sub2 : Node) (tag : Nat), NoWrap sub2 →
                    is_singleton_leaf sub2 = false →
                    NoWrap (.BitmapNode size bitmap
                      (array.set (set_bitindex bitmap (set_bitpos h sh)) sub2) tag) := by
                  intro sub2 tag h1 h2
                  refine .bitmap _ _ _ _ ?_ ?_ <;> intro c hc <;>
                    rcases List.mem_or_eq_of_mem_set hc with hc' | rfl
                  · exact hsub c hc'
                  · exact h1
                  · exact hflat c hc'
                  · exact h2
                -- analyse the inlining step by the shape of the child result
                cases hsubn with
                | key e =>
                  simp only [] at hw
                  split at hw <;>
                  · simp only [Except.ok.injEq] at hw; subst hw
                    simp only [] at hres
                    rw [WRes.W_NEWNODE.injEq] at hres
                    subst hres
                    exact mk _ _ (.key e) rfl
                | collision csize chash carr cmid =>
                  simp only [] at hw
                  split at hw <;>
                  · simp only [Except.ok.injEq] at hw; subst hw
                    simp only [] at hres
                    rw [WRes.W_NEWNODE.injEq] at hres
                    subst hres
                    exact mk _ _ (.collision csize chash carr cmid) rfl
                | bitmap ssize sbmp sarr smid hsub2 hflat2 =>
                  simp only [] at hw
                  split at hw
                  · simp at hw
                  · rename_i sub2 hok
                    have h2 : NoWrap sub2 ∧ is_singleton_leaf sub2 = false := by
                      split at hok
                      · -- size-1 child result: look at its only slot
                        split at hok
                        · exact absurd hok (by simp)
                        · rename_i s0 hs0
                          split at hok
                          · -- the slot is itself a node: no inlining
                            rename_i hset
                            simp only [Except.ok.injEq] at hok; subst hok
                            refine ⟨.bitmap ssize sbmp sarr smid hsub2 hflat2, ?_⟩
                            cases s0 with
                            | key kk => simp [is_set_node] at hset
                            | BitmapNode a b c d => simp [is_singleton_leaf, hs0]
                            | CollisionNode a b c d => simp [is_singleton_leaf, hs0]
                          · -- the slot is an element leaf: inline it
                            rename_i hset
                            simp only [Except.ok.injEq] at hok; subst hok
                            cases s0 with
                            | key kk => exact ⟨.key kk, rfl⟩
                            | BitmapNode a b c d => simp [is_set_node] at hset
                            | CollisionNode a b c d => simp [is_set_node] at hset
                      · -- child result of size ≠ 1: no inlining
                        rename_i hs1
                        simp only [Except.ok.injEq] at hok; subst hok
                        exact ⟨.bitmap ssize sbmp sarr smid hsub2 hflat2,
                          by simp [is_singleton_leaf, hs1]⟩
                    split at hw <;>
                    · simp only [Except.ok.injEq] at hw; subst hw
                      simp only [] at hres
                      rw [WRes.W_NEWNODE.injEq] at hres
                      subst hres
                      exact mk _ _ h2.1 h2.2

/-- Bitwise AND distributes over splitting both operands at a power-of-two
boundary. -/
theorem and_split (k p x y c d : Nat) (hp : p = 2 ^ k) (hx : x < p) (hc : c < p) :
    (x + p * y) &&& (c + p * d) = (x &&& c) + p * (y &&& d) := by
  subst hp
  apply Nat.eq_of_testBit_eq
  intro i
  rw [Nat.add_comm x, Nat.add_comm c, Nat.add_comm (x &&& c)]
  rw [Nat.testBit_and, Nat.testBit_mul_pow_two_add _ hx, Nat.testBit_mul_pow_two_add _ hc,
    Nat.testBit_mul_pow_two_add _ (Nat.and_lt_two_pow x hc)]
  by_cases hik : i < k
  · simp [hik, Nat.testBit_and]
  · simp [hik, Nat.testBit_and]

/-- Adding multiples of `2^j` above both a small value and a small mask
does not change their AND. -/
theorem and_kill (j q z δ mask : Nat) (hq : q = 2 ^ j) (hz : z < q) (hm : mask < q) :
    (z + q * δ) &&& mask = z &&& mask := by
  have h := and_split j q z δ mask 0 hq hz hm
  simpa using h

/-- The first three SWAR steps act independently on the two 16-bit halves
of a 32-bit word. -/
theorem swar123_split16 (x : Nat) (hx : x < 4294967296) :
    swar123 0x55555555 0x33333333 0x0F0F0F0F x =
      swar123 0x5555 0x3333 0x0F0F (x % 65536) +
        65536 * swar123 0x5555 0x3333 0x0F0F (x / 65536) := by
  simp only [swar123, Nat.shiftRight_eq_div_pow,
    show (2 : Nat) ^ 1 = 2 from rfl, show (2 : Nat) ^ 2 = 4 from rfl,
    show (2 : Nat) ^ 4 = 16 from rfl]
  set L := x % 65536 with hL
  set H := x / 65536 with hH
  have hLlt : L < 65536 := by omega
  have hHlt : H < 65536 := by omega
  have hx2 : x / 2 = (L / 2 + 32768 * (H % 2)) + 65536 * (H / 2) := by omega
  rw [hx2, show (0x55555555 : Nat) = 0x5555 + 65536 * 0x5555 from by norm_num,
    and_split 16 65536 _ _ _ _ (by norm_num) (by omega) (by norm_num),
    and_kill 15 32768 (L / 2) (H % 2) 0x5555 (by norm_num) (by omega) (by norm_num)]
  set a1 := L / 2 &&& 0x5555 with ha1
  set b1 := H / 2 &&& 0x5555 with hb1
  have ha1L : a1 ≤ L / 2 := Nat.and_le_left
  have hb1H : b1 ≤ H / 2 := Nat.and_le_left
  have hv1 : x - (a1 + 65536 * b1) = (L - a1) + 65536 * (H - b1) := by omega
  rw [hv1]
  have hv1L : L - a1 < 65536 := by omega
  have hv1H : H - b1 < 65536 := by omega
  have hdiv2 : ((L - a1) + 65536 * (H - b1)) / 4 =
      ((L - a1) / 4 + 16384 * ((H - b1) % 4)) + 65536 * ((H - b1) / 4) := by omega
  rw [hdiv2, show (0x33333333 : Nat) = 0x3333 + 65536 * 0x3333 from by norm_num,
    and_split 16 65536 (L - a1) (H - b1) 0x3333 0x3333 (by norm_num) (by omega) (by norm_num),
    and_split 16 65536 _ _ 0x3333 0x3333 (by norm_num) (by omega) (by norm_num),
    and_kill 14 16384 ((L - a1) / 4) ((H - b1) % 4) 0x3333 (by norm_num) (by omega) (by norm_num)]
  set a2 := (L - a1) &&& 0x3333 with ha2
  set a2' := (L - a1) / 4 &&& 0x3333 with ha2'
  set b2 := (H - b1) &&& 0x3333 with hb2
  set b2' := (H - b1) / 4 &&& 0x3333 with hb2'
  have ha2m : a2 ≤ 0x3333 := Nat.and_le_right
  have ha2m' : a2' ≤ 0x3333 := Nat.and_le_right
  have hb2m : b2 ≤ 0x3333 := Nat.and_le_right
  have hb2m' : b2' ≤ 0x3333 := Nat.and_le_right
  have hv2 : (a2 + 65536 * b2) + (a2' + 65536 * b2') = (a2 + a2') + 65536 * (b2 + b2') := by
    omega
  rw [hv2]
  have hdiv4 : ((a2 + a2') + 65536 * (b2 + b2')) / 16 =
      ((a2 + a2') / 16 + 4096 * ((b2 + b2') % 16)) + 65536 * ((b2 + b2') / 16) := by omega
  rw [hdiv4, show (0x0F0F0F0F : Nat) = 0x0F0F + 65536 * 0x0F0F from by norm_num,
    and_split 16 65536 (a2 + a2') (b2 + b2') 0x0F0F 0x0F0F (by norm_num) (by omega)
      (by norm_num),
    and_split 16 65536 _ _ 0x0F0F 0x0F0F (by norm_num) (by omega) (by norm_num),
    and_kill 12 4096 ((a2 + a2') / 16) ((b2 + b2') % 16) 0x0F0F (by norm_num) (by omega)
      (by norm_num)]
  omega

/-- The first three SWAR steps act independently on the two bytes of a
16-bit half. -/
theorem swar123_split8 (x : Nat) (hx : x < 65536) :
    swar123 0x5555 0x3333 0x0F0F x =
      swar123 0x55 0x33 0x0F (x % 256) + 256 * swar123 0x55 0x33 0x0F (x / 256) := by
  simp only [swar123, Nat.shiftRight_eq_div_pow,
    show (2 : Nat) ^ 1 = 2 from rfl, show (2 : Nat) ^ 2 = 4 from rfl,
    show (2 : Nat) ^ 4 = 16 from rfl]
  set L := x % 256 with hL
  set H := x / 256 with hH
  have hLlt : L < 256 := by omega
  have hHlt : H < 256 := by omega
  have hx2 : x / 2 = (L / 2 + 128 * (H % 2)) + 256 * (H / 2) := by omega
  rw [hx2, show (0x5555 : Nat) = 0x55 + 256 * 0x55 from by norm_num,
    and_split 8 256 _ _ _ _ (by norm_num) (by omega) (by norm_num),
    and_kill 7 128 (L / 2) (H % 2) 0x55 (by norm_num) (by omega) (by norm_num)]
  set a1 := L / 2 &&& 0x55 with ha1
  set b1 := H / 2 &&& 0x55 with hb1
  have ha1L : a1 ≤ L / 2 := Nat.and_le_left
  have hb1H : b1 ≤ H / 2 := Nat.and_le_left
  have hv1 : x - (a1 + 256 * b1) = (L - a1) + 256 * (H - b1) := by omega
  rw [hv1]
  have hdiv2 : ((L - a1) + 256 * (H - b1)) / 4 =
      ((L - a1) / 4 + 64 * ((H - b1) % 4)) + 256 * ((H - b1) / 4) := by omega
  rw [hdiv2, show (0x3333 : Nat) = 0x33 + 256 * 0x33 from by norm_num,
    and_split 8 256 (L - a1) (H - b1) 0x33 0x33 (by norm_num) (by omega) (by norm_num),
    and_split 8 256 _ _ 0x33 0x33 (by norm_num) (by omega) (by norm_num),
    and_kill 6 64 ((L - a1) / 4) ((H - b1) % 4) 0x33 (by norm_num) (by omega) (by norm_num)]
  set a2 := (L - a1) &&& 0x33 with ha2
  set a2' := (L - a1) / 4 &&& 0x33 with ha2'
  set b2 := (H - b1) &&& 0x33 with hb2
  set b2' := (H - b1) / 4 &&& 0x33 with hb2'
  have ha2m : a2 ≤ 0x33 := Nat.and_le_right
  have ha2m' : a2' ≤ 0x33 := Nat.and_le_right
  have hb2m : b2 ≤ 0x33 := Nat.and_le_right
  have hb2m' : b2' ≤ 0x33 := Nat.and_le_right
  have hv2 : (a2 + 256 * b2) + (a2' + 256 * b2') = (a2 + a2') + 256 * (b2 + b2') := by omega
  rw [hv2]
  have hdiv4 : ((a2 + a2') + 256 * (b2 + b2')) / 16 =
      ((a2 + a2') / 16 + 16 * ((b2 + b2') % 16)) + 256 * ((b2 + b2') / 16) := by omega
  rw [hdiv4, show (0x0F0F : Nat) = 0x0F + 256 * 0x0F from by norm_num,
    and_split 8 256 (a2 + a2') (b2 + b2') 0x0F 0x0F (by norm_num) (by omega) (by norm_num),
    and_split 8 256 _ _ 0x0F 0x0F (by norm_num) (by omega) (by norm_num),
    and_kill 4 16 ((a2 + a2') / 16) ((b2 + b2') % 16) 0x0F (by norm_num) (by omega)
      (by norm_num)]
  omega

set_option maxRecDepth 40000 in
/-- On a single byte the first three SWAR steps compute the popcount. -/
theorem swar123_byte : ∀ x < 256, swar123 0x55 0x33 0x0F x = pc 8 x := by decide

/-- `pc` of a byte is at most 8. -/
theorem pc8_le (x : Nat) : pc 8 x ≤ 8 := by
  have h := List.countP_le_length (l := List.range 8) (p := fun i => x.testBit i)
  simpa [pc] using h

/-- The final two SWAR steps sum four byte counts. -/
theorem swar45_sum (p0 p1 p2 p3 : Nat) (h0 : p0 ≤ 8) (h1 : p1 ≤ 8) (h2 : p2 ≤ 8)
    (h3 : p3 ≤ 8) :
    swar45 (p0 + 256 * p1 + 65536 * p2 + 16777216 * p3) = p0 + p1 + p2 + p3 := by
  simp only [swar45, Nat.shiftRight_eq_div_pow]
  rw [show (0x3F : Nat) = 2 ^ 6 - 1 from by norm_num, Nat.and_pow_two_sub_one_eq_mod]
  have h8 : (2 : Nat) ^ 8 = 256 := by norm_num
  have h16 : (2 : Nat) ^ 16 = 65536 := by norm_num
  have h6 : (2 : Nat) ^ 6 = 64 := by norm_num
  rw [h8, h16, h6]
  have he : (p0 + 256 * p1 + 65536 * p2 + 16777216 * p3) / 256 =
      p1 + 256 * p2 + 65536 * p3 := by omega
  rw [he]
  have hf : (p0 + 256 * p1 + 65536 * p2 + 16777216 * p3 +
      (p1 + 256 * p2 + 65536 * p3)) / 65536 = p2 + 257 * p3 := by omega
  rw [hf]
  omega

/-- `pc` splits at any bit boundary. -/
theorem pc_split (m n x : Nat) : pc (m + n) x = pc m (x % 2 ^ m) + pc n (x / 2 ^ m) := by
  unfold pc
  rw [List.range_add, List.countP_append, List.countP_map]
  congr 1
  · refine List.countP_congr fun i hi => ?_
    have him : i < m := List.mem_range.1 hi
    simp [Nat.testBit_mod_two_pow, him]
  · refine List.countP_congr fun i _ => ?_
    have : x / 2 ^ m = x >>> m := (Nat.shiftRight_eq_div_pow x m).symm
    simp [this, Nat.testBit_shiftRight, Function.comp]

/-- The SWAR popcount of the source equals `pc 32` below `2^32`. -/
theorem set_bitcount_eq_pc (v : Nat) (hv : v < 2 ^ 32) : set_bitcount v = pc 32 v := by
  have hv' : v < 4294967296 := by omega
  have hbc : set_bitcount v = swar45 (swar123 0x55555555 0x33333333 0x0F0F0F0F v) := rfl
  rw [hbc, swar123_split16 v hv', swar123_split8 (v % 65536) (by omega),
    swar123_split8 (v / 65536) (by omega),
    swar123_byte (v % 65536 % 256) (by omega), swar123_byte (v % 65536 / 256) (by omega),
    swar123_byte (v / 65536 % 256) (by omega), swar123_byte (v / 65536 / 256) (by omega)]
  rw [show pc 8 (v % 65536 % 256) + 256 * pc 8 (v % 65536 / 256) +
        65536 * (pc 8 (v / 65536 % 256) + 256 * pc 8 (v / 65536 / 256)) =
      pc 8 (v % 65536 % 256) + 256 * pc 8 (v % 65536 / 256) +
        65536 * pc 8 (v / 65536 % 256) + 16777216 * pc 8 (v / 65536 / 256) from by ring]
  rw [swar45_sum _ _ _ _ (pc8_le _) (pc8_le _) (pc8_le _) (pc8_le _)]
  have h32 : pc 32 v = pc 16 (v % 2 ^ 16) + pc 16 (v / 2 ^ 16) := pc_split 16 16 v
  have hlow : pc 16 (v % 2 ^ 16) =
      pc 8 (v % 2 ^ 16 % 2 ^ 8) + pc 8 (v % 2 ^ 16 / 2 ^ 8) := pc_split 8 8 _
  have hhigh : pc 16 (v / 2 ^ 16) =
      pc 8 (v / 2 ^ 16 % 2 ^ 8) + pc 8 (v / 2 ^ 16 / 2 ^ 8) := pc_split 8 8 _
  rw [h32, hlow, hhigh]
  norm_num
  omega

/-- Popcount is monotone under bitwise AND. -/
theorem pc_and_le (w x y : Nat) : pc w (x &&& y) ≤ pc w x := by
  unfold pc
  refine List.countP_mono_left fun i _ hi => ?_
  simp only [Nat.testBit_and, Bool.and_eq_true] at hi
  exact hi.1

/-- Counting a predicate weakened by one fresh witness adds one. -/
theorem countP_or_one (l : List Nat) (p : Nat → Bool) (i : Nat)
    (hmem : i ∈ l) (hnd : l.Nodup) (hp : p i = false) :
    l.countP (fun j => p j || decide (i = j)) = l.countP p + 1 := by
  induction l with
  | nil => simp at hmem
  | cons a as ihl =>
    rcases List.nodup_cons.1 hnd with ⟨hna, hnd'⟩
    rcases List.mem_cons.1 hmem with rfl | hmem'
    · have hcong : as.countP (fun j => p j || decide (i = j)) = as.countP p :=
        List.countP_congr fun b hb => by
          have hne : i ≠ b := fun he => hna (he ▸ hb)
          simp [hne]
      rw [List.countP_cons_of_pos _ _ (by simp), List.countP_cons_of_neg _ _ (by simp [hp]),
        hcong]
    · have hne : i ≠ a := fun he => hna (he ▸ hmem')
      have hd : (decide (i = a)) = false := by simp [hne]
      rw [List.countP_cons, List.countP_cons, ihl hmem' hnd', hd]
      simp only [Bool.or_false]
      omega

/-- Setting a fresh bit increases the popcount by one. -/
theorem pc_insert (w x m : Nat) (hm : m < w) (hx : x.testBit m = false) :
    pc w (x ||| 2 ^ m) = pc w x + 1 := by
  unfold pc
  have hcong : (List.range w).countP (fun i => (x ||| 2 ^ m).testBit i) =
      (List.range w).countP (fun i => x.testBit i || decide (m = i)) :=
    List.countP_congr fun i _ => by simp [Nat.testBit_or, Nat.testBit_two_pow]
  rw [hcong, countP_or_one _ _ m (List.mem_range.2 hm) (List.nodup_range w) hx]

/-- A single power of two has popcount one. -/
theorem pc_pow (w m : Nat) (hm : m < w) : pc w (2 ^ m) = 1 := by
  have h := pc_insert w 0 m hm (by simp)
  simpa [pc] using h

/-- If `bmp &&& 2^m = 0` then bit `m` of `bmp` is clear. -/
theorem testBit_false_of_and_pow (bmp m : Nat) (h0 : bmp &&& 2 ^ m = 0) :
    bmp.testBit m = false := by
  by_contra hc
  rw [Bool.not_eq_false] at hc
  have h1 : (bmp &&& 2 ^ m).testBit m = true := by
    simp [Nat.testBit_and, hc, Nat.testBit_two_pow_self]
  rw [h0] at h1
  simp at h1

/-- Source-level popcount of a bitmap grows by one when a vacant bit is
set. -/
theorem bc_or_pow (bmp m : Nat) (hb : bmp < 2 ^ 32) (hm : m < 32)
    (h0 : bmp &&& 2 ^ m = 0) :
    set_bitcount (bmp ||| 2 ^ m) = set_bitcount bmp + 1 := by
  have htb : bmp.testBit m = false := testBit_false_of_and_pow bmp m h0
  have hlt : bmp ||| 2 ^ m < 2 ^ 32 :=
    Nat.or_lt_two_pow hb (Nat.pow_lt_pow_right (by norm_num) hm)
  rw [set_bitcount_eq_pc _ hlt, set_bitcount_eq_pc _ hb, pc_insert 32 bmp m hm htb]

/-- The compact index never exceeds the bitmap's popcount. -/
theorem bc_index_le (bmp bit : Nat) (hb : bmp < 2 ^ 32) :
    set_bitindex bmp bit ≤ set_bitcount bmp := by
  unfold set_bitindex
  have hlt : bmp &&& (bit - 1) < 2 ^ 32 := Nat.lt_of_le_of_lt Nat.and_le_left hb
  rw [set_bitcount_eq_pc _ hlt, set_bitcount_eq_pc _ hb]
  exact pc_and_le 32 bmp (bit - 1)

/-- `set_bitpos` is a power of two. -/
theorem set_bitpos_eq (hash shift : Nat) : set_bitpos hash shift = 2 ^ set_mask hash shift := by
  unfold set_bitpos
  exact Nat.one_shiftLeft _

/-- The 5-bit slot index is below 32. -/
theorem set_mask_lt (hash shift : Nat) : set_mask hash shift < 32 :=
  Nat.lt_of_le_of_lt Nat.and_le_right (by norm_num)

/-- `set_bitpos` fits in 32 bits. -/
theorem set_bitpos_lt (hash shift : Nat) : set_bitpos hash shift < 2 ^ 32 := by
  rw [set_bitpos_eq]
  exact Nat.pow_lt_pow_right (by norm_num) (set_mask_lt _ _)

/-- Setting the probed bit does not change the compact index of that bit. -/
theorem bitindex_or_same (bmp m : Nat) :
    set_bitindex (bmp ||| 2 ^ m) (2 ^ m) = set_bitindex bmp (2 ^ m) := by
  unfold set_bitindex
  congr 1
  rw [Nat.and_distrib_right]
  have h : (2 ^ m) &&& (2 ^ m - 1) = 0 := by
    rw [Nat.and_pow_two_sub_one_eq_mod, Nat.mod_self]
  rw [h, Nat.or_zero]

/-- After setting a bit, probing it finds it. -/
theorem or_pow_and_ne_zero (bmp m : Nat) : (bmp ||| 2 ^ m) &&& 2 ^ m ≠ 0 := by
  intro h
  have h1 : ((bmp ||| 2 ^ m) &&& 2 ^ m).testBit m = true := by
    simp [Nat.testBit_and, Nat.testBit_or, Nat.testBit_two_pow_self]
  rw [h] at h1
  simp at h1

/-- The empty bitmap node satisfies the invariant. -/
theorem nodeInv_empty (m : Nat) : NodeInv (.BitmapNode 0 0 [] m) :=
  .bitmap _ _ _ _ (by norm_num) rfl (by decide) (by intro c hc; simp at hc)

/-- The singleton bitmap node wrapping a collision node satisfies the
invariant. -/
theorem nodeInv_wrap (size chash : Nat) (carr : List Elem) (mid m sh : Nat)
    (hclen : carr.length ≤ size) :
    NodeInv (.BitmapNode 1 (set_bitpos chash sh) [.CollisionNode size chash carr mid] m) := by
  refine .bitmap _ _ _ _ (set_bitpos_lt _ _) rfl ?_ ?_
  · have hlt : (2 : Nat) ^ set_mask chash sh < 2 ^ 32 :=
      Nat.pow_lt_pow_right (by norm_num) (set_mask_lt _ _)
    rw [set_bitpos_eq, set_bitcount_eq_pc _ hlt, pc_pow 32 _ (set_mask_lt _ _)]
    rfl
  · intro c hc
    simp at hc
    subst hc
    exact .collision _ _ _ _ hclen

/-- A completed scan certifies that every scanned slot exists and misses
the key. -/
theorem find_index_none_spec :
    ∀ (k i : Nat) (arr : List Elem) (key : Elem),
      collision_find_index arr key i k = .ok none →
      ∀ j, j < k → ∃ a, arr[i + j]? = some a ∧ a ≠ key := by
  intro k
  induction k with
  | zero => intro i arr key _ j hj; omega
  | succ k ihk =>
    intro i arr key h j hj
    rw [collision_find_index] at h
    split at h
    · exact absurd h (by simp)
    · rename_i a ha
      split at h
      · exact absurd h (by simp)
      · rename_i hne
        cases j with
        | zero => exact ⟨a, ha, hne⟩
        | succ j' =>
          have hidx : i + (j' + 1) = (i + 1) + j' := by omega
          rw [hidx]
          exact ihk (i + 1) arr key h j' (by omega)

/-- A scan finds the key at the first slot that holds it. -/
theorem find_index_found :
    ∀ (k i j : Nat) (arr : List Elem) (key : Elem),
      (∀ j', j' < j → ∃ a, arr[i + j']? = some a ∧ a ≠ key) →
      arr[i + j]? = some key → j < k →
      collision_find_index arr key i k = .ok (some (i + j)) := by
  intro k
  induction k with
  | zero => intro i j arr key _ _ hj; omega
  | succ k ihk =>
    intro i j arr key hpre hfound hj
    rw [collision_find_index]
    cases j with
    | zero =>
      rw [show i + 0 = i from rfl] at hfound
      rw [hfound]
      simp
    | succ j' =>
      obtain ⟨a, ha, hane⟩ := hpre 0 (by omega)
      rw [show i + 0 = i from rfl] at ha
      rw [ha]
      simp only []
      rw [if_neg hane]
      have hstep : i + (j' + 1) = (i + 1) + j' := by omega
      rw [hstep]
      refine ihk (i + 1) j' arr key (fun j'' hj'' => ?_) ?_ (by omega)
      · obtain ⟨b, hb, hbne⟩ := hpre (j'' + 1) (by omega)
        have hx : i + (j'' + 1) = (i + 1) + j'' := by omega
        rw [hx] at hb
        exact ⟨b, hb, hbne⟩
      · have hx : i + (j' + 1) = (i + 1) + j' := by omega
        rw [hx] at hfound
        exact hfound

/-- Looking up the insertion point of a freshly inserted entry finds it. -/
theorem getElem?_insert_at (A : List Node) (kidx : Nat) (x : Node) (hk : kidx ≤ A.length) :
    (A.take kidx ++ x :: A.drop kidx)[kidx]? = some x := by
  have htl : (A.take kidx).length = kidx := by
    simp only [List.length_take]
    omega
  rw [List.getElem?_append_right (by rw [htl]), htl]
  simp

/-- `add` preserves the structural invariant (for any mutation id). -/
theorem node_add_inv :
    ∀ fuel n shift hash key mutid r, NodeInv n →
      node_add fuel n shift hash key mutid = .ok r → NodeInv r.node := by
  intro fuel
  induction fuel with
  | zero => intro n sh h k m r _ hr; simp [node_add] at hr
  | succ fuel ih =>
    intro n sh h k m r hn hr
    match n with
    | .key _ => simp [node_add] at hr
    | .BitmapNode size bitmap array mid =>
      cases hn with
      | bitmap _ _ _ _ hbmp hsize hlen hsub =>
        rw [node_add] at hr
        simp only [] at hr
        split at hr
        · rename_i hbit
          split at hr
          · exact absurd hr (by simp)
          · -- an element leaf sits in the probed slot
            split at hr
            · simp only [Except.ok.injEq] at hr; subst hr
              exact .bitmap _ _ _ _ hbmp hsize hlen hsub
            · split at hr
              · -- a collision node replaces the slot
                split at hr <;>
                · simp only [Except.ok.injEq] at hr; subst hr
                  refine .bitmap _ _ _ _ hbmp (by rw [hsize, List.length_set])
                    (by rw [List.length_set]; exact hlen) ?_
                  intro c hc
                  rcases List.mem_or_eq_of_mem_set hc with hc' | rfl
                  · exact hsub c hc'
                  · exact .collision _ _ _ _ (by simp)
              · -- a chain of fresh bitmap nodes replaces the slot
                split at hr
                · exact absurd hr (by simp)
                · rename_i r1 hr1
                  split at hr
                  · exact absurd hr (by simp)
                  · rename_i r2 hr2
                    have hi1 : NodeInv r1.node := ih _ _ _ _ _ r1 (nodeInv_empty m) hr1
                    have hi2 : NodeInv r2.node := ih _ _ _ _ _ r2 hi1 hr2
                    split at hr <;>
                    · simp only [Except.ok.injEq] at hr; subst hr
                      refine .bitmap _ _ _ _ hbmp (by rw [hsize, List.length_set])
                        (by rw [List.length_set]; exact hlen) ?_
                      intro c hc
                      rcases List.mem_or_eq_of_mem_set hc with hc' | rfl
                      · exact hsub c hc'
                      · exact hi2
          · -- a child node sits in the probed slot
            rename_i child hnk heq
            split at hr
            · exact absurd hr (by simp)
            · rename_i rc hrc
              have hic : NodeInv rc.node :=
                ih _ _ _ _ _ rc (hsub child (List.getElem?_mem heq)) hrc
              split at hr
              · simp only [Except.ok.injEq] at hr; subst hr
                refine .bitmap _ _ _ _ hbmp (by rw [hsize, List.length_set])
                  (by rw [List.length_set]; exact hlen) ?_
                intro c hc
                rcases List.mem_or_eq_of_mem_set hc with hc' | rfl
                · exact hsub c hc'
                · exact hic
              · split at hr <;>
                · simp only [Except.ok.injEq] at hr; subst hr
                  refine .bitmap _ _ _ _ hbmp (by rw [hsize, List.length_set])
                    (by rw [List.length_set]; exact hlen) ?_
                  intro c hc
                  rcases List.mem_or_eq_of_mem_set hc with hc' | rfl
                  · exact hsub c hc'
                  · exact hic
        · -- vacant bit: plain insertion
          rename_i hbit
          have hbit0 : bitmap &&& 2 ^ set_mask h sh = 0 := by
            rw [← set_bitpos_eq]
            omega
          have hm32 : set_mask h sh < 32 := set_mask_lt h sh
          have hkle : set_bitindex bitmap (set_bitpos h sh) ≤ array.length := by
            rw [hlen]
            exact bc_index_le _ _ hbmp
          split at hr <;>
          · simp only [Except.ok.injEq] at hr; subst hr
            refine .bitmap _ _ _ _ ?_ ?_ ?_ ?_
            · rw [set_bitpos_eq]
              exact Nat.or_lt_two_pow hbmp (Nat.pow_lt_pow_right (by norm_num) hm32)
            · simp only [List.length_append, List.length_take, List.length_cons,
                List.length_drop]
              omega
            · simp only [List.length_append, List.length_take, List.length_cons,
                List.length_drop]
              rw [set_bitpos_eq, bc_or_pow _ _ hbmp hm32 hbit0, ← hlen]
              omega
            · intro c hc
              rcases List.mem_append.1 hc with hc' | hc'
              · exact hsub c (List.take_subset _ _ hc')
              · rcases List.mem_cons.1 hc' with rfl | hc''
                · exact .key _
                · exact hsub c (List.drop_subset _ _ hc'')
    | .CollisionNode size chash carr mid =>
      cases hn with
      | collision _ _ _ _ hclen =>
        rw [node_add] at hr
        simp only [] at hr
        split at hr
        · split at hr
          · exact absurd hr (by simp)
          · -- append a fresh element
            split at hr <;>
            · simp only [Except.ok.injEq] at hr; subst hr
              refine .collision _ _ _ _ ?_
              simp only [List.length_append, List.length_cons, List.length_nil]
              omega
          · -- found: node unchanged
            simp only [Except.ok.injEq] at hr; subst hr
            exact .collision _ _ _ _ hclen
        · -- wrap into a fresh bitmap node and add there
          split at hr
          · exact absurd hr (by simp)
          · rename_i rw2 hrw
            have hwrap : NodeInv
                (.BitmapNode 1 (set_bitpos chash sh) [.CollisionNode size chash carr mid] m) := by
              refine .bitmap _ _ _ _ (set_bitpos_lt _ _) rfl ?_ ?_
              · have hlt : (2 : Nat) ^ set_mask chash sh < 2 ^ 32 :=
                  Nat.pow_lt_pow_right (by norm_num) (set_mask_lt _ _)
                rw [set_bitpos_eq, set_bitcount_eq_pc _ hlt, pc_pow 32 _ (set_mask_lt _ _)]
                rfl
              · intro c hc
                simp at hc
                subst hc
                exact .collision _ _ _ _ hclen
            have hres := ih _ _ _ _ _ rw2 hwrap hrw
            simp only [Except.ok.injEq] at hr; subst hr
            exact hres

/-- Re-adding the element just added with mutid 0 returns the new root
object itself, unchanged, with `added = false` — for any fuel exceeding the
fuel of the first insertion (the second run can descend one level further,
into a collision node the first run created in place). -/
theorem node_add_retrace :
    ∀ fuel n shift hash key r, NodeInv n →
      node_add fuel n shift hash key 0 = .ok r →
      ∀ fuel2, fuel < fuel2 →
        node_add fuel2 r.node shift hash key 0 = .ok ⟨r.node, false, false, true⟩ := by
  intro fuel
  induction fuel with
  | zero => intro n sh h k r _ hr; simp [node_add] at hr
  | succ fuel ih =>
    intro n sh h k r hn hr fuel2 hf2
    obtain ⟨f2, rfl⟩ : ∃ f2, fuel2 = f2 + 1 := ⟨fuel2 - 1, by omega⟩
    match n with
    | .key _ => simp [node_add] at hr
    | .BitmapNode size bitmap array mid =>
      cases hn with
      | bitmap _ _ _ _ hbmp hsize hlen hsub =>
        rw [node_add] at hr
        simp only [] at hr
        split at hr
        · rename_i hbit
          split at hr
          · exact absurd hr (by simp)
          · -- an element leaf in the probed slot
            rename_i k' heq
            split at hr
            · -- the same element: self returned
              rename_i hkeq
              simp only [Except.ok.injEq] at hr
              subst hr
              rw [node_add]
              simp only []
              rw [if_pos hbit, heq]
              simp only []
              rw [if_pos hkeq]
            · rename_i hkne
              split at hr
              · -- a collision node replaces the slot
                rename_i hchash
                split at hr
                · simp_all
                · simp only [Except.ok.injEq] at hr
                  subst hr
                  obtain ⟨hklt, _⟩ := List.getElem?_eq_some.1 heq
                  have hlook : (array.set (set_bitindex bitmap (set_bitpos h sh))
                      (.CollisionNode 4 h [k', k] 0))[set_bitindex bitmap (set_bitpos h sh)]? =
                      some (.CollisionNode 4 h [k', k] 0) :=
                    List.getElem?_set_eq_of_lt _ hklt
                  have hkne' : ¬(k' = k) := fun he => hkne he.symm
                  have hscan : collision_find_index [k', k] k 0 4 = .ok (some 1) := by
                    rw [collision_find_index]
                    simp only [List.getElem?_cons_zero]
                    rw [if_neg hkne', collision_find_index]
                    simp
                  have hinner : node_add f2 (.CollisionNode 4 h [k', k] 0) (sh + 5) h k 0 =
                      .ok ⟨.CollisionNode 4 h [k', k] 0, false, false, true⟩ := by
                    obtain ⟨g2, rfl⟩ : ∃ g2, f2 = g2 + 1 := ⟨f2 - 1, by omega⟩
                    rw [node_add]
                    simp [hscan]
                  rw [node_add]
                  simp only []
                  rw [if_pos hbit, hlook]
                  simp only []
                  rw [hinner]
                  simp [List.set_set]
              · -- a chain of fresh bitmap nodes replaces the slot
                rename_i hchash
                split at hr
                · exact absurd hr (by simp)
                · rename_i r1 hr1
                  split at hr
                  · exact absurd hr (by simp)
                  · rename_i r2 hr2
                    split at hr
                    · simp_all
                    · simp only [Except.ok.injEq] at hr
                      subst hr
                      obtain ⟨hklt, _⟩ := List.getElem?_eq_some.1 heq
                      have hlook : (array.set (set_bitindex bitmap (set_bitpos h sh))
                          r2.node)[set_bitindex bitmap (set_bitpos h sh)]? = some r2.node :=
                        List.getElem?_set_eq_of_lt _ hklt
                      have hi1 : NodeInv r1.node :=
                        node_add_inv fuel _ _ _ _ _ r1 (nodeInv_empty 0) hr1
                      have hinner := ih r1.node (sh + 5) h k r2 hi1 hr2 f2 (by omega)
                      match hrn : r2.node with
                      | .key kk =>
                        rw [hrn] at hinner
                        obtain ⟨g2, rfl⟩ : ∃ g2, f2 = g2 + 1 := ⟨f2 - 1, by omega⟩
                        simp [node_add] at hinner
                      | .BitmapNode a b c d =>
                        rw [hrn] at hinner hlook
                        rw [node_add]
                        simp only []
                        rw [if_pos hbit, hlook]
                        simp only []
                        rw [hinner]
                        simp [List.set_set]
                      | .CollisionNode a b c d =>
                        rw [hrn] at hinner hlook
                        rw [node_add]
                        simp only []
                        rw [if_pos hbit, hlook]
                        simp only []
                        rw [hinner]
                        simp [List.set_set]
          · -- a child node in the probed slot
            rename_i child hnk heq
            split at hr
            · exact absurd hr (by simp)
            · rename_i rc hrc
              have hchild : NodeInv child := hsub child (List.getElem?_mem heq)
              have hinner := ih child (sh + 5) h k rc hchild hrc f2 (by omega)
              split at hr
              · -- the child returned itself
                rename_i hsame
                simp only [Except.ok.injEq] at hr
                subst hr
                have hceq : rc.node = child :=
                  (node_add_zero_ghost fuel child (sh + 5) h k rc hrc).2 hsame
                have harr : array.set (set_bitindex bitmap (set_bitpos h sh)) rc.node =
                    array := by
                  rw [hceq]
                  exact list_set_same _ _ _ heq
                simp only [harr]
                rw [hceq] at hinner
                match hcn : child with
                | .key kk => exact (hnk kk rfl).elim
                | .BitmapNode a b c d =>
                  rw [node_add]
                  simp only []
                  rw [if_pos hbit, heq]
                  simp only []
                  rw [hinner]
                  simp [list_set_same _ _ _ heq]
                | .CollisionNode a b c d =>
                  rw [node_add]
                  simp only []
                  rw [if_pos hbit, heq]
                  simp only []
                  rw [hinner]
                  simp [list_set_same _ _ _ heq]
              · rename_i hnsame
                split at hr
                · simp_all
                · simp only [Except.ok.injEq] at hr
                  subst hr
                  obtain ⟨hklt, _⟩ := List.getElem?_eq_some.1 heq
                  have hlook : (array.set (set_bitindex bitmap (set_bitpos h sh))
                      rc.node)[set_bitindex bitmap (set_bitpos h sh)]? = some rc.node :=
                    List.getElem?_set_eq_of_lt _ hklt
                  match hrn : rc.node with
                  | .key kk =>
                    rw [hrn] at hinner
                    obtain ⟨g2, rfl⟩ : ∃ g2, f2 = g2 + 1 := ⟨f2 - 1, by omega⟩
                    simp [node_add] at hinner
                  | .BitmapNode a b c d =>
                    rw [hrn] at hinner hlook
                    rw [node_add]
                    simp only []
                    rw [if_pos hbit, hlook]
                    simp only []
                    rw [hinner]
                    simp [List.set_set]
                  | .CollisionNode a b c d =>
                    rw [hrn] at hinner hlook
                    rw [node_add]
                    simp only []
                    rw [if_pos hbit, hlook]
                    simp only []
                    rw [hinner]
                    simp [List.set_set]
        · -- vacant bit: plain insertion, then the retrace finds the leaf
          rename_i hbit
          split at hr
          · simp_all
          · simp only [Except.ok.injEq] at hr
            subst hr
            have hmeq := set_bitpos_eq h sh
            have hbitset : (bitmap ||| set_bitpos h sh) &&& set_bitpos h sh ≠ 0 := by
              rw [hmeq]
              exact or_pow_and_ne_zero _ _
            have hidx : set_bitindex (bitmap ||| set_bitpos h sh) (set_bitpos h sh) =
                set_bitindex bitmap (set_bitpos h sh) := by
              rw [hmeq]
              exact bitindex_or_same _ _
            have hkle : set_bitindex bitmap (set_bitpos h sh) ≤ array.length := by
              rw [hlen]
              exact bc_index_le _ _ hbmp
            have hlook := getElem?_insert_at array _ (.key k) hkle
            rw [node_add]
            simp only []
            rw [if_pos hbitset, hidx, hlook]
            simp
    | .CollisionNode size chash carr mid =>
      cases hn with
      | collision _ _ _ _ hclen =>
        rw [node_add] at hr
        simp only [] at hr
        split at hr
        · rename_i hh
          split at hr
          · exact absurd hr (by simp)
          · -- append of a fresh element
            rename_i hfind
            split at hr
            · simp_all
            · simp only [Except.ok.injEq] at hr
              subst hr
              have hsz : size = carr.length := by
                rcases Nat.eq_zero_or_pos size with hz | hpos
                · omega
                · obtain ⟨a, ha, _⟩ := find_index_none_spec size 0 carr k hfind (size - 1)
                    (by omega)
                  rw [Nat.zero_add] at ha
                  obtain ⟨hlt, _⟩ := List.getElem?_eq_some.1 ha
                  omega
              have hfound : collision_find_index (carr ++ [k]) k 0 (size + 1) =
                  .ok (some size) := by
                have h0 := find_index_found (size + 1) 0 size (carr ++ [k]) k
                  (fun j' hj' => by
                    obtain ⟨a, ha, hane⟩ := find_index_none_spec size 0 carr k hfind j' hj'
                    rw [Nat.zero_add] at ha
                    rw [Nat.zero_add]
                    have hj'len : j' < carr.length := by omega
                    exact ⟨a, by rw [List.getElem?_append_left hj'len]; exact ha, hane⟩)
                  (by
                    rw [Nat.zero_add, hsz]
                    exact List.getElem?_concat_length carr k)
                  (by omega)
                rw [Nat.zero_add] at h0
                exact h0
              rw [node_add]
              simp only []
              rw [if_pos hh, hfound]
          · -- found: self returned
            rename_i idx hfind
            simp only [Except.ok.injEq] at hr
            subst hr
            rw [node_add]
            simp only []
            rw [if_pos hh, hfind]
        · -- hash differs: the wrap's result node is retraced via the IH
          rename_i hhne
          split at hr
          · exact absurd hr (by simp)
          · rename_i rw2 hrw
            simp only [Except.ok.injEq] at hr
            subst hr
            exact ih _ sh h k rw2 (nodeInv_wrap size chash carr mid 0 sh hclen) hrw
              (f2 + 1) (by omega)

/-- C6: a delete on a set with no size-1 bitmap wrapper around a single
element leaf below the root leaves no such wrapper either — the inline
step of `BitmapNode.without` compacts every one the recursion produces. -/
theorem C6_exclude_leaves_no_singleton_wrapper :
    ∀ fuel (s : Set) element s', NoWrap s.root →
      Set.exclude fuel s element = .ok s' → NoWrap s'.root := by
  intro fuel s element s' hn hex
  rw [Set.exclude] at hex
  split at hex
  · exact absurd hex (by simp)
  · rename_i w hw
    split at hex
    · simp only [Except.ok.injEq] at hex; subst hex
      exact .bitmap _ _ _ _ (by simp) (by simp)
    · exact absurd hex (by simp)
    · rename_i node hres
      simp only [Except.ok.injEq] at hex; subst hex
      exact node_without_preserves_nowrap fuel s.root 0 (set_hash element) element 0 w hn hw
        node hres

/-- Witness for C6: in the two-level set `{⟨0,0⟩, ⟨1,32⟩}` (hashes sharing
the lowest 5-bit group), deleting `⟨1,32⟩` inlines the surviving leaf into
the root, leaving a flat one-element root. -/
theorem C6_witness :
    NoWrap (Node.BitmapNode 1 1 [.key (⟨0, 0⟩ : Elem)] 0) :=
  C6_exclude_leaves_no_singleton_wrapper 64
    ⟨2, .BitmapNode 1 1 [.BitmapNode 2 3 [.key ⟨0, 0⟩, .key ⟨1, 32⟩] 0] 0⟩
    ⟨1, 32⟩ ⟨1, .BitmapNode 1 1 [.key ⟨0, 0⟩] 0⟩
    (by
      refine .bitmap _ _ _ _ ?_ ?_ <;> intro c hc <;> simp at hc <;> subst hc
      · refine .bitmap _ _ _ _ ?_ ?_ <;> intro c hc <;>
          rcases (by simpa using hc : c = Node.key ⟨0, 0⟩ ∨ c = Node.key ⟨1, 32⟩) with rfl | rfl
        · exact .key _
        · exact .key _
        · rfl
        · rfl
      · rfl)
    rfl

/-- C8: for every persistent set `s` (satisfying the structural invariant)
and element `e`, when `s.include(e)` returns a set `s2`, the second
`include` of `e` returns `s2` itself — the same object, not a copy, with
count and contents unchanged — so `s.include(e).include(e)` is
operationally identical to `s.include(e)`; this covers in particular
re-inserting an element already present in a collision node.  Fuel models
Python's recursion headroom: the second run may descend one level further
(into a collision node the first run created), so any `fuel2 > fuel`
suffices. -/
theorem C8_insert_idempotent_returns_same (fuel : Nat) (s : Set) (e : Elem) (s2 : Set)
    (hinv : SetInv s) (h1 : Set.insert fuel s e = .ok s2) :
    ∀ fuel2, fuel < fuel2 → Set.insert fuel2 s2 e = .ok s2 := by
  intro fuel2 hlt
  rw [Set.insert] at h1
  split at h1
  · exact absurd h1 (by simp)
  · rename_i r hr
    have hretrace := node_add_retrace fuel s.root 0 (set_hash e) e r hinv hr fuel2 hlt
    split at h1
    · rename_i hsame
      simp only [Except.ok.injEq] at h1
      subst h1
      have hceq : r.node = s.root :=
        (node_add_zero_ghost fuel s.root 0 (set_hash e) e r hr).2 hsame
      rw [hceq] at hretrace
      rw [Set.insert]
      rw [hretrace]
      simp
    · simp only [Except.ok.injEq] at h1
      subst h1
      rw [Set.insert]
      have hroot : (Set.mk (if r.added then s.count + 1 else s.count) r.node).root = r.node := rfl
      rw [hroot, hretrace]
      simp

/-- Witness for C8: inserting `kB` into `{kA}` (colliding hashes) yields
`setAB`; re-inserting `kB` returns `setAB` itself. -/
theorem C8_witness :
    SetInv setA ∧ Set.insert 2 setA kB = .ok setAB ∧ Set.insert 3 setAB kB = .ok setAB := by
  have hinv : SetInv setA := by
    refine .bitmap _ _ _ _ (by norm_num) rfl (by decide) ?_
    intro c hc
    simp [setA] at hc
    subst hc
    exact .key _
  have h1 : Set.insert 2 setA kB = .ok setAB := by rfl
  exact ⟨hinv, h1, C8_insert_idempotent_returns_same 2 setA kB setAB hinv h1 3 (by omega)⟩


end Immutables
